import Mathlib

/-!
Verification of the objinsync incremental-sync engine against its
natural-language specification.

Go strings are modelled as `List Char` (`Str`); Go maps as association
lists / lists-as-sets; the doublestar glob matcher (an external library)
is an abstract boolean parameter; the S3 SDK is abstracted to the page
listing data it delivers and per-task download outcomes, exactly as the
spec's ObjectStore collaborator prescribes.
-/

set_option maxRecDepth 10000

namespace Objinsync

/-- Go strings, modelled as lists of characters. -/
abbrev Str := List Char

/-- Literal helper: the character list of a Lean string literal. -/
def str (s : String) : Str := s.toList

/-- Alias for the library bridge between the boolean and the
propositional prefix test. -/
theorem isPrefixOfEq {α : Type} [BEq α] [LawfulBEq α] {l₁ l₂ : List α} :
    l₁.isPrefixOf l₂ = true ↔ l₁ <+: l₂ := List.isPrefixOf_iff_prefix

/-- Alias: the empty list is a prefix of every list. -/
theorem nilIsPrefix {α : Type} {l : List α} : [] <+: l := List.nil_prefix

/-- Alias: dropping the last element yields a prefix. -/
theorem dropLastIsPrefix {α : Type} (l : List α) : l.dropLast <+: l :=
  List.dropLast_prefix l

/-- Alias: only the empty list is a prefix of the empty list. -/
theorem isPrefixNilIff {α : Type} {l : List α} : l <+: [] ↔ l = [] :=
  List.prefix_nil

/-- First-occurrence split: Go's `strings.SplitN(s, sep, 2)`.
`splitOnce sep xs = some (l, r)` iff `sep` occurs in `xs`, `l` is the part
before the first occurrence and `r` the part after it; `none` iff `sep`
(nonempty) does not occur. -/
def splitOnce (sep : Str) : Str → Option (Str × Str)
  | [] => if sep.isPrefixOf [] then some ([], []) else none
  | c :: cs =>
    if sep.isPrefixOf (c :: cs) then some ([], (c :: cs).drop sep.length)
    else (splitOnce sep cs).map (fun p => (c :: p.1, p.2))

/-- Go `parseObjectUri` (pkg/sync/pull.go): split on the first `"//"`,
then split the remainder on the first `"/"`; the two parts are the bucket
and the key. Errors are modelled as `none`. -/
def parseObjectUri (uri : Str) : Option (Str × Str) :=
  match splitOnce (str "//") uri with
  | none => none
  | some (_, path) =>
    match splitOnce (str "/") path with
    | none => none
    | some (b, k) => some (b, k)

/-- Split a path into `'/'`-separated raw segments (may contain empty
segments, as in Go's `strings.Split(s, "/")`). -/
def splitSeg : Str → List Str
  | [] => [[]]
  | c :: cs =>
    if c = '/' then [] :: splitSeg cs
    else
      match splitSeg cs with
      | [] => [[c]]
      | s :: rest => (c :: s) :: rest

/-- One step of Go `filepath.Clean`'s segment normalisation: drop empty
and `"."` segments, resolve `".."` against the stack (the stack is kept
reversed: head is the most recent segment). -/
def cleanPush (rooted : Bool) (stack : List Str) (seg : Str) : List Str :=
  if seg = [] ∨ seg = str "." then stack
  else if seg = str ".." then
    match stack with
    | [] => if rooted then [] else [seg]
    | top :: rest => if top = str ".." then seg :: top :: rest else rest
  else seg :: stack

/-- Whether a path is absolute (Unix): begins with `'/'`. -/
def isRooted (xs : Str) : Bool := xs.head? = some '/'

/-- The cleaned segment list of a path, per Go `filepath.Clean` on Unix. -/
def cleanSegs (rooted : Bool) (xs : Str) : List Str :=
  ((splitSeg xs).foldl (cleanPush rooted) []).reverse

/-- Join segments with `'/'`. -/
def joinSegs (segs : List Str) : Str := List.intercalate (str "/") segs

/-- Render a cleaned path back to a string, per Go `filepath.Clean`. -/
def renderClean (xs : Str) : Str :=
  let r := isRooted xs
  let segs := cleanSegs r xs
  if segs = [] then (if r then str "/" else str ".")
  else (if r then '/' :: joinSegs segs else joinSegs segs)

/-- Drop the longest common prefix of two segment lists, returning the two
remainders (the element scan of Go `filepath.Rel`). -/
def dropCommon : List Str → List Str → List Str × List Str
  | a :: as_, b :: bs =>
    if a = b then dropCommon as_ bs else (a :: as_, b :: bs)
  | as_, bs => (as_, bs)

/-- Go `filepath.Rel(base, targ)` on Unix, at the segment level: clean both
paths, fail on absolute/relative mismatch, strip the common segment
run, fail if the first remaining base segment is `".."`, otherwise go up
once per remaining base segment and then down the remaining target
segments.  A cleaned relative base equal to `"."` contributes no
segments; a cleaned relative target equal to `"."` is the literal
segment `"."` (as in the Go byte-level scan).  `goRelTail` is the part
after the equality and rootedness checks. -/
def goRelTail (bs ts : List Str) : Option Str :=
  if (dropCommon bs ts).1.head? = some (str "..") then none
  else if (dropCommon bs ts).1 ≠ [] then
    some (joinSegs
      (List.replicate (dropCommon bs ts).1.length (str "..") ++ (dropCommon bs ts).2))
  else some (joinSegs (dropCommon bs ts).2)

/-- Go `filepath.Rel(base, targ)` on Unix, continued: the main branch
dispatches to `goRelTail` on the cleaned segment lists. -/
def goRel (base targ : Str) : Option Str :=
  if isRooted base = isRooted targ ∧
      cleanSegs (isRooted base) base = cleanSegs (isRooted targ) targ then
    some (str ".")
  else if isRooted base ≠ isRooted targ then none
  else
    goRelTail (cleanSegs (isRooted base) base)
      (if isRooted targ = false ∧ cleanSegs (isRooted targ) targ = []
        then [str "."] else cleanSegs (isRooted targ) targ)

/-- Go `filepath.Join(a, b)` on Unix: drop empty elements, join with
`'/'`, then `Clean`; all-empty input yields the empty string. -/
def goJoin (a b : Str) : Str :=
  if a = [] then (if b = [] then [] else renderClean b)
  else if b = [] then renderClean a
  else renderClean (a ++ '/' :: b)

/-! ## Page classifier (`Puller.handlePageList`, pkg/sync/pull.go) -/

/-- One object record of an S3 `ListObjectsV2` page: `{ *obj.Key, *obj.ETag }`. -/
structure S3Obj where
  key : Str
  etag : Str
deriving DecidableEq

/-- Go `DownloadTask` (pkg/sync/pull.go). -/
structure DownloadTask where
  Uri : Str
  LocalPath : Str
  Uid : Str
  UidKey : Str
deriving DecidableEq

/-- The glob-matching exclusion test `Puller.isPathExcluded`: true iff any
configured pattern matches the path.  `dsMatch` abstracts the external
`doublestar.Match` library function. -/
def isPathExcluded (dsMatch : Str → Str → Bool) (exclude : List Str) (path : Str) : Bool :=
  exclude.any (fun pattern => dsMatch pattern path)

/-- The per-cycle state read and written by `handlePageList`: the delete
set, the identity cache, the two counters, and the tasks enqueued so far.
`listedRel` is instrumentation only: it records each `relPath` exactly at
the `fileListedCnt += 1` statement, so invariants can speak about the
value counted there. -/
structure ClassifierState where
  filesToDelete : List Str
  uidCache : List (Str × Str)
  fileListedCnt : Int
  filePulledCnt : Int
  tasks : List DownloadTask
  listedRel : List Str
deriving DecidableEq

/-- The body of the `for _, obj := range page.Contents` loop of
`Puller.handlePageList`, one record at a time. -/
def processObj (dsMatch : Str → Str → Bool) (exclude : List Str)
    (bucket remoteDirPath localDir : Str) (s : ClassifierState) (obj : S3Obj) :
    ClassifierState :=
  -- For directories, S3 returns keys with / suffix
  if (str "/").isSuffixOf obj.key then s
  else
    match goRel remoteDirPath obj.key with
    | none => s
    | some relPath =>
      -- ignore file that matches exclude rules
      if isPathExcluded dsMatch exclude relPath then s
      else
        -- remove file from purge list, then skip the parent dir itself
        if relPath = [] ∨ relPath = str "/" ∨ relPath = str "." then
          { s with filesToDelete :=
              s.filesToDelete.filter (· ≠ goJoin localDir relPath) }
        else
          -- fileListedCnt += 1, then the identity comparison;
          -- `oldUid, ok := uidCache[uidKey]; ok && oldUid == newUid`
          -- is exactly `lookup uidKey = some newUid`
          if s.uidCache.lookup relPath = some obj.etag then
            { s with
              filesToDelete :=
                s.filesToDelete.filter (· ≠ goJoin localDir relPath),
              fileListedCnt := s.fileListedCnt + 1,
              listedRel := s.listedRel ++ [relPath] }
          else
            { s with
              filesToDelete :=
                s.filesToDelete.filter (· ≠ goJoin localDir relPath),
              fileListedCnt := s.fileListedCnt + 1,
              listedRel := s.listedRel ++ [relPath],
              filePulledCnt := s.filePulledCnt + 1,
              tasks := s.tasks ++
                [⟨str "s3://" ++ bucket ++ '/' :: obj.key,
                  goJoin localDir relPath, obj.etag, relPath⟩] }

/-- Go `Puller.handlePageList`: fold the loop body over the page contents. -/
def handlePageList (dsMatch : Str → Str → Bool) (exclude : List Str)
    (page : List S3Obj) (bucket remoteDirPath localDir : Str)
    (s : ClassifierState) : ClassifierState :=
  page.foldl (processObj dsMatch exclude bucket remoteDirPath localDir) s

/-! ## Download worker (`Puller.downloadHandler`, pkg/sync/pull.go) -/

/-- Outcomes of the filesystem and network operations one
`downloadHandler` call performs, supplied by the environment.
`downloadOk` is the result of `downloader.Download`. -/
structure WorkerEnv where
  parentDirExists : Bool
  mkdirOk : Bool
  openTmpOk : Bool
  downloadOk : Bool
  renameOk : Bool
deriving DecidableEq

/-- Result of one `downloadHandler` call: the identity cache afterwards,
the error messages pushed to `errMsgQueue`, and the local path the
handler renamed a file onto (if any). -/
structure WorkerResult where
  uidCache : List (Str × Str)
  errMsgs : List Str
  written : Option Str
deriving DecidableEq

/-- Go `Puller.downloadHandler`, step for step.  Note that the source
discards the value returned by `downloader.Download`: `env.downloadOk`
is deliberately never consulted, mirroring the code. -/
def downloadHandler (task : DownloadTask) (env : WorkerEnv)
    (uidCache : List (Str × Str)) : WorkerResult :=
  if (str "/").isSuffixOf task.Uri then
    -- skip directories from S3
    ⟨uidCache, [], none⟩
  else
    match parseObjectUri task.Uri with
    | none => ⟨uidCache, [str "Got invalid remote uri " ++ task.Uri], none⟩
    | some _ =>
      -- create parent dir if not exists
      if ¬ env.parentDirExists ∧ ¬ env.mkdirOk then
        ⟨uidCache, [str "Failed to create directory for " ++ task.LocalPath], none⟩
      else
        -- create file
        if ¬ env.openTmpOk then
          ⟨uidCache, [str "Failed to create temp file for download"], none⟩
        else
          -- downloader.Download(tmpfile, ...): its error value is dropped
          -- on the floor by the source, so nothing here branches on
          -- env.downloadOk.
          -- use rename to make file update atomic
          if ¬ env.renameOk then
            ⟨uidCache, [str "Failed to replace file " ++ task.LocalPath ++
              str " for download"], none⟩
          else
            -- update cache with new object ID
            ⟨(task.UidKey, task.Uid) :: uidCache, [], some task.LocalPath⟩

/-! ## Local inventory (`listAndPruneDir`, pkg/sync/dir.go)

The local tree is modelled as the set of directories and regular files
strictly under the root, each as a list of path segments.  `filepath.Walk`
visits parents before children, so the sets the walk computes are
independent of sibling order; the final `os.Remove` loop iterates over a
Go map, whose order is unspecified, so it is an explicit parameter
constrained to be a permutation of the marked set. -/

/-- Local filesystem content strictly under the walk root. -/
structure LocalFs where
  dirs : List (List Str)
  files : List (List Str)
deriving DecidableEq

/-- The string a directory entry is matched against: its relative path
with `"/"` appended (dir.go appends `/` so `foo/**` also matches `foo`). -/
def dirMatchPath (segs : List Str) : Str := joinSegs segs ++ str "/"

/-- The nonempty proper prefixes of a segment path: its ancestors
strictly under the root. -/
def ancestors (segs : List Str) : List (List Str) :=
  ((List.range segs.length).drop 1).map (fun k => segs.take k)

/-- Whether the walk reaches an entry at `segs`: the root does not match
an exclude pattern (its relative path is `"."`, matched as `"./"`), and
no ancestor directory matches one (`filepath.SkipDir`). -/
def reached (excl : Str → Bool) (segs : List Str) : Bool :=
  ¬ excl (str "./") ∧ (ancestors segs).all (fun q => ¬ excl (dirMatchPath q))

/-- Whether a visited directory is entered into `dirsToDelete`: it is
reached, it is not the root, and it does not itself match an exclude
pattern. -/
def markedDir (excl : Str → Bool) (d : List Str) : Bool :=
  reached excl d ∧ d ≠ [] ∧ ¬ excl (dirMatchPath d)

/-- Whether a file survives the walk into the returned file map: it is
reached and does not match an exclude pattern. -/
def survivingFile (excl : Str → Bool) (f : List Str) : Bool :=
  reached excl f ∧ ¬ excl (joinSegs f)

/-- The content of the `dirsToDelete` map when the walk finishes: every
marked directory except those a surviving file unmarked via
`delete(dirsToDelete, parentDir)` — only the immediate parent. -/
def dirsToDelete (fs : LocalFs) (excl : Str → Bool) : List (List Str) :=
  (fs.dirs.filter (markedDir excl)).filter
    (fun d => ¬ fs.files.any (fun f => survivingFile excl f ∧ f.dropLast = d))

/-- Whether the filesystem still holds an entry strictly below `d`. -/
def hasEntryUnder (dirsCur files : List (List Str)) (d : List Str) : Bool :=
  dirsCur.any (fun q => d ≠ q ∧ d.isPrefixOf q) ∨
    files.any (fun f => d ≠ f ∧ d.isPrefixOf f)

/-- One `os.Remove(d)` of the deletion loop: removing a directory
succeeds only when it exists and is empty; errors are ignored. -/
def pruneStep (files : List (List Str)) (dirsCur : List (List Str))
    (d : List Str) : List (List Str) :=
  if d ∈ dirsCur ∧ ¬ hasEntryUnder dirsCur files d then dirsCur.erase d
  else dirsCur

/-- The `for d := range dirsToDelete { os.Remove(d) }` loop, in map
iteration order `order`. -/
def pruneDirs (files dirs : List (List Str)) (order : List (List Str)) :
    List (List Str) :=
  order.foldl (pruneStep files) dirs

/-- Result of `listAndPruneDir`: the returned file map (absolute paths)
and, as the observable side effect, the directories still on disk. -/
structure InventoryResult where
  files : List Str
  remainingDirs : List (List Str)
deriving DecidableEq

/-- Go `listAndPruneDir(dirname, exclude)` (dir.go), for a successful walk. -/
def listAndPruneDir (root : Str) (fs : LocalFs) (excl : Str → Bool)
    (order : List (List Str)) : InventoryResult :=
  { files := (fs.files.filter (survivingFile excl)).map
      (fun f => goJoin root (joinSegs f)),
    remainingDirs := pruneDirs fs.files fs.dirs order }

/-! ## Reconciliation driver (`Puller.Pull`, pkg/sync/pull.go)

Workers run concurrently with the classifier in the source; the
classifier never writes the identity cache and the workers never touch
the delete set or the counters, so running all enqueued tasks after the
listing is an admissible linearization for the properties below. -/

/-- Environment one pull cycle runs against: the local tree, the pages
the object store delivers, whether the listing then fails, and the
per-task filesystem/network outcomes. -/
structure PullEnv where
  fs : LocalFs
  pruneOrder : List (List Str)
  inventoryErr : Bool
  regionOk : Bool
  workingDirOk : Bool
  pages : List (List S3Obj)
  listingErr : Bool
  workerEnvs : Nat → WorkerEnv

/-- Accumulated effect of the worker pool draining the task queue. -/
structure WorkersResult where
  uidCache : List (Str × Str)
  errMsgs : List Str
  written : List Str

/-- Drain the task queue: each task is consumed by exactly one
`downloadHandler` call. -/
def runWorkers (tasks : List DownloadTask) (envs : Nat → WorkerEnv)
    (cache : List (Str × Str)) : WorkersResult :=
  tasks.enum.foldl
    (fun acc it =>
      let r := downloadHandler it.2 (envs it.1) acc.uidCache
      { uidCache := r.uidCache, errMsgs := acc.errMsgs ++ r.errMsgs,
        written := acc.written ++ r.written.toList })
    ⟨cache, [], []⟩

/-- Observable outcome of one `Puller.Pull` call. -/
structure PullResult where
  msg : Str
  uidCache : List (Str × Str)
  written : List Str
  deleted : List Str
  fileListedCnt : Int
  filePulledCnt : Int
  listedRel : List Str
  finalDeleteSet : List Str

/-- Fatal message strings returned by `Pull` (formatting details of the
wrapped `%v` errors elided). -/
def inventoryFailMsg (localDir : Str) : Str :=
  str "Failed to list and prune local dir " ++ localDir

/-- Fatal message for an unparsable remote URI. -/
def invalidUriMsg (remoteUri : Str) : Str := str "Invalid remote uri " ++ remoteUri

/-- Fatal message for a failed region detection. -/
def regionFailMsg : Str := str "Failed to detect AWS region"

/-- Fatal message for a failed working-directory creation. -/
def workingDirFailMsg (localDir : Str) : Str :=
  str "Failed to create working directory " ++ localDir

/-- Fatal message for a listing failure. -/
def listFailMsg (remoteUri : Str) : Str :=
  str "Failed to list remote uri " ++ remoteUri

/-- A `PullResult` for fatal exits taken before any task ran. -/
def fatalResult (m : Str) (cache : List (Str × Str)) : PullResult :=
  ⟨m, cache, [], [], 0, 0, [], []⟩

/-- The classifier state entering the listing, after
`self.fileListedCnt = 0; self.filePulledCnt = 0` (pull.go, just before
`ListObjectsV2Pages`). -/
def cycleStart (filesToDelete : List Str) (cache : List (Str × Str)) :
    ClassifierState :=
  ⟨filesToDelete, cache, 0, 0, [], []⟩

/-- Go `Puller.Pull`: one reconciliation cycle. -/
def pull (remoteUri localDir : Str) (dsMatch : Str → Str → Bool)
    (exclude : List Str) (cache : List (Str × Str)) (env : PullEnv) :
    PullResult :=
  if env.inventoryErr then fatalResult (inventoryFailMsg localDir) cache
  else
    let inv := listAndPruneDir localDir env.fs
      (isPathExcluded dsMatch exclude) env.pruneOrder
    match parseObjectUri remoteUri with
    | none => fatalResult (invalidUriMsg remoteUri) cache
    | some bk =>
      if ¬ env.regionOk then fatalResult regionFailMsg cache
      else if ¬ env.workingDirOk then fatalResult (workingDirFailMsg localDir) cache
      else
        let sF := env.pages.foldl
          (fun s page => handlePageList dsMatch exclude page bk.1 bk.2 localDir s)
          (cycleStart inv.files cache)
        let w := runWorkers sF.tasks env.workerEnvs cache
        if env.listingErr then
          -- close(taskQueue); wg.Wait() ran before this check: workers drained
          ⟨listFailMsg remoteUri, w.uidCache, w.written, [],
            sF.fileListedCnt, sF.filePulledCnt, sF.listedRel, sF.filesToDelete⟩
        else
          ⟨List.intercalate (str "; ") w.errMsgs, w.uidCache, w.written,
            sF.filesToDelete, sF.fileListedCnt, sF.filePulledCnt,
            sF.listedRel, sF.filesToDelete⟩

/-! ## Daemon loop (`pullCmd.Run`, main.go)

`pull()` in main.go prints any non-empty error string and calls
`os.Exit(1)`; in daemon mode the first pull runs before the ticker loop
and `InitialRunFinished.Store(true)` runs only after a ticker-triggered
pull returns.  The loop is modelled over the sequence of error strings
the successive `Puller.Pull` calls would return. -/

/-- State of the daemon after consuming the supplied cycle outcomes. -/
structure DaemonResult where
  flagAfterFirst : Bool
  flag : Bool
  exited : Option Nat
deriving DecidableEq

/-- The `for { select { case <-ticker.C: pull(); InitialRunFinished.Store(true) } }`
loop: each tick runs a pull, exits the process with status 1 on a
non-empty message, and stores `true` otherwise. -/
def daemonLoop (flag : Bool) : List Str → Bool × Option Nat
  | [] => (flag, none)
  | m :: ms => if m ≠ [] then (flag, some 1) else daemonLoop true ms

/-- Daemon mode of `pullCmd.Run`: store `false`, run the first pull
(no store afterwards), then the ticker loop. -/
def daemonRun (msgs : List Str) : DaemonResult :=
  match msgs with
  | [] => ⟨false, false, none⟩
  | m1 :: rest =>
    if m1 ≠ [] then ⟨false, false, some 1⟩
    else
      let p := daemonLoop false rest
      ⟨false, p.1, p.2⟩

/-! ## Helper lemmas -/

/-- The loop body never adds a path to the delete set. -/
theorem processObj_filesToDelete_subset (dsMatch : Str → Str → Bool)
    (exclude : List Str) (bucket remoteDirPath localDir : Str)
    (s : ClassifierState) (obj : S3Obj) :
    (processObj dsMatch exclude bucket remoteDirPath localDir s obj).filesToDelete ⊆
      s.filesToDelete := by
  unfold processObj
  repeat' split
  all_goals first
    | exact List.Subset.refl _
    | exact fun x hx => (List.mem_filter.mp hx).1

/-- A whole page never adds a path to the delete set. -/
theorem handlePageList_filesToDelete_subset (dsMatch : Str → Str → Bool)
    (exclude : List Str) (page : List S3Obj) (bucket remoteDirPath localDir : Str)
    (s : ClassifierState) :
    (handlePageList dsMatch exclude page bucket remoteDirPath localDir s).filesToDelete ⊆
      s.filesToDelete := by
  induction page generalizing s with
  | nil => exact List.Subset.refl _
  | cons o os ih =>
    exact (ih _).trans
      (processObj_filesToDelete_subset dsMatch exclude bucket remoteDirPath localDir s o)

/-- Once a path has left the delete set, no later record of the page
re-adds it. -/
theorem handlePageList_not_mem_filesToDelete (dsMatch : Str → Str → Bool)
    (exclude : List Str) (page : List S3Obj) (bucket remoteDirPath localDir : Str)
    (s : ClassifierState) (p : Str) (hp : p ∉ s.filesToDelete) :
    p ∉ (handlePageList dsMatch exclude page bucket remoteDirPath localDir s).filesToDelete :=
  fun hmem => hp
    (handlePageList_filesToDelete_subset dsMatch exclude page bucket
      remoteDirPath localDir s hmem)

/-- One record that passes the directory-marker, relativization and
exclusion checks removes its joined local path from the delete set. -/
theorem processObj_removes_localPath (dsMatch : Str → Str → Bool)
    (exclude : List Str) (bucket remoteDirPath localDir : Str)
    (s : ClassifierState) (obj : S3Obj) (relPath : Str)
    (h1 : (str "/").isSuffixOf obj.key = false)
    (h2 : goRel remoteDirPath obj.key = some relPath)
    (h3 : isPathExcluded dsMatch exclude relPath = false) :
    goJoin localDir relPath ∉
      (processObj dsMatch exclude bucket remoteDirPath localDir s obj).filesToDelete := by
  unfold processObj
  rw [h1, h2]
  simp only [Bool.false_eq_true, if_false, h3]
  repeat' split
  all_goals simp

/-- Counter shape of one loop iteration: `filePulledCnt` is incremented
only in an iteration that already incremented `fileListedCnt`, and both
only ever grow by at most one. -/
theorem processObj_counters (dsMatch : Str → Str → Bool) (exclude : List Str)
    (bucket remoteDirPath localDir : Str) (s : ClassifierState) (obj : S3Obj)
    (h0 : 0 ≤ s.filePulledCnt) (h1 : s.filePulledCnt ≤ s.fileListedCnt) :
    0 ≤ (processObj dsMatch exclude bucket remoteDirPath localDir s obj).filePulledCnt ∧
      (processObj dsMatch exclude bucket remoteDirPath localDir s obj).filePulledCnt ≤
        (processObj dsMatch exclude bucket remoteDirPath localDir s obj).fileListedCnt := by
  unfold processObj
  repeat' split
  all_goals refine ⟨?_, ?_⟩
  all_goals dsimp only
  all_goals omega

/-- The counter invariant is preserved by any run of loop iterations. -/
theorem foldl_processObj_counters (dsMatch : Str → Str → Bool) (exclude : List Str)
    (bucket remoteDirPath localDir : Str) (objs : List S3Obj) (s : ClassifierState)
    (h0 : 0 ≤ s.filePulledCnt) (h1 : s.filePulledCnt ≤ s.fileListedCnt) :
    0 ≤ (objs.foldl (processObj dsMatch exclude bucket remoteDirPath localDir) s).filePulledCnt ∧
      (objs.foldl (processObj dsMatch exclude bucket remoteDirPath localDir) s).filePulledCnt ≤
        (objs.foldl (processObj dsMatch exclude bucket remoteDirPath localDir) s).fileListedCnt := by
  induction objs generalizing s with
  | nil => exact ⟨h0, h1⟩
  | cons o os ih =>
    have h := processObj_counters dsMatch exclude bucket remoteDirPath localDir s o h0 h1
    exact ih _ h.1 h.2

/-- Once set, the readiness flag of the ticker loop stays set. -/
theorem daemonLoop_true_flag (ms : List Str) : (daemonLoop true ms).1 = true := by
  induction ms with
  | nil => rfl
  | cons m ms ih => by_cases h : m = [] <;> simp [daemonLoop, h, ih]

/-! ## C1 -/

/-- C1 (code bug): the claim says the identity cache is updated only
after a successful download followed by the atomic rename, so a failed
download must leave the cache untouched.  In the source,
`downloadHandler` discards the error returned by `downloader.Download`
(pkg/sync/pull.go), so on a failed download it still renames the temp
file over the destination and writes the cache entry.  Evaluated here at
a task whose download fails (`downloadOk = false`) but whose rename
succeeds: the cache entry for the task's key is written anyway, and the
destination is replaced. -/
theorem downloadHandler_failed_download_updates_cache :
    (downloadHandler
        ⟨str "s3://bkt/home/dags/b.file", str "/tmp/x/b.file", str "\"e1\"", str "b.file"⟩
        ⟨true, true, true, false, true⟩ []).uidCache.lookup (str "b.file") =
      some (str "\"e1\"") ∧
    (downloadHandler
        ⟨str "s3://bkt/home/dags/b.file", str "/tmp/x/b.file", str "\"e1\"", str "b.file"⟩
        ⟨true, true, true, false, true⟩ []).written = some (str "/tmp/x/b.file") ∧
    (downloadHandler
        ⟨str "s3://bkt/home/dags/b.file", str "/tmp/x/b.file", str "\"e1\"", str "b.file"⟩
        ⟨true, true, true, false, true⟩ []).errMsgs = [] := by decide

/-! ## C6 -/

/-- C6: a record whose relative key has a cache entry equal to its listed
identity enqueues no task and leaves `filePulledCnt` unchanged, while
still incrementing `fileListedCnt` (pkg/sync/pull.go, handlePageList). -/
theorem identity_hit_skips_download (dsMatch : Str → Str → Bool)
    (exclude : List Str) (bucket remoteDirPath localDir : Str)
    (s : ClassifierState) (obj : S3Obj) (relPath : Str)
    (h1 : (str "/").isSuffixOf obj.key = false)
    (h2 : goRel remoteDirPath obj.key = some relPath)
    (h3 : isPathExcluded dsMatch exclude relPath = false)
    (h4 : ¬ (relPath = [] ∨ relPath = str "/" ∨ relPath = str "."))
    (h5 : s.uidCache.lookup relPath = some obj.etag) :
    (processObj dsMatch exclude bucket remoteDirPath localDir s obj).tasks = s.tasks ∧
    (processObj dsMatch exclude bucket remoteDirPath localDir s obj).filePulledCnt =
      s.filePulledCnt ∧
    (processObj dsMatch exclude bucket remoteDirPath localDir s obj).fileListedCnt =
      s.fileListedCnt + 1 := by
  unfold processObj
  rw [h1, h2]
  simp [h3, h4, h5]

/-- Witness for C6 at a concrete record and cache. -/
theorem identity_hit_skips_download_witness :
    (processObj (fun _ _ => false) [] (str "bkt") (str "home/dags") (str "/tmp/x")
        ⟨[], [(str "b.file", str "\"1\"")], 5, 3, [], []⟩
        ⟨str "home/dags/b.file", str "\"1\""⟩).tasks = [] ∧
    (processObj (fun _ _ => false) [] (str "bkt") (str "home/dags") (str "/tmp/x")
        ⟨[], [(str "b.file", str "\"1\"")], 5, 3, [], []⟩
        ⟨str "home/dags/b.file", str "\"1\""⟩).filePulledCnt = 3 ∧
    (processObj (fun _ _ => false) [] (str "bkt") (str "home/dags") (str "/tmp/x")
        ⟨[], [(str "b.file", str "\"1\"")], 5, 3, [], []⟩
        ⟨str "home/dags/b.file", str "\"1\""⟩).fileListedCnt = 6 := by
  have h := identity_hit_skips_download (fun _ _ => false) [] (str "bkt")
    (str "home/dags") (str "/tmp/x")
    ⟨[], [(str "b.file", str "\"1\"")], 5, 3, [], []⟩
    ⟨str "home/dags/b.file", str "\"1\""⟩ (str "b.file")
    (by decide) (by decide) (by decide) (by decide) (by decide)
  exact ⟨h.1, h.2.1, h.2.2⟩

/-! ## C7 -/

/-- C7: every record of a page that passes the directory-marker,
relativization and exclusion checks has `join(localDir, relPath)` absent
from the delete set after the page is classified — whether or not it is
later skipped as the prefix itself or by the identity comparison — and
later records never re-add it; a remote file that is present and
unchanged therefore cannot be deleted at cycle end. -/
theorem listed_record_not_deleted (dsMatch : Str → Str → Bool)
    (exclude : List Str) (page : List S3Obj) (bucket remoteDirPath localDir : Str)
    (s : ClassifierState) (obj : S3Obj) (relPath : Str)
    (hmem : obj ∈ page)
    (h1 : (str "/").isSuffixOf obj.key = false)
    (h2 : goRel remoteDirPath obj.key = some relPath)
    (h3 : isPathExcluded dsMatch exclude relPath = false) :
    goJoin localDir relPath ∉
      (handlePageList dsMatch exclude page bucket remoteDirPath localDir s).filesToDelete := by
  induction page generalizing s with
  | nil => cases hmem
  | cons o os ih =>
    rcases List.mem_cons.mp hmem with rfl | hmemtail
    · exact handlePageList_not_mem_filesToDelete dsMatch exclude os bucket
        remoteDirPath localDir _ _
        (processObj_removes_localPath dsMatch exclude bucket remoteDirPath
          localDir s obj relPath h1 h2 h3)
    · exact ih _ hmemtail

/-- Witness for C7: a record skipped by the identity comparison still
leaves the delete set without its local path `/tmp/x/b.file`. -/
theorem listed_record_not_deleted_witness :
    goJoin (str "/tmp/x") (str "b.file") ∉
      (handlePageList (fun _ _ => false) [] [⟨str "home/dags/b.file", str "\"1\""⟩]
        (str "bkt") (str "home/dags") (str "/tmp/x")
        ⟨[str "/tmp/x/b.file", str "/tmp/x/stale.go"],
          [(str "b.file", str "\"1\"")], 0, 0, [], []⟩).filesToDelete :=
  listed_record_not_deleted (fun _ _ => false) []
    [⟨str "home/dags/b.file", str "\"1\""⟩] (str "bkt") (str "home/dags")
    (str "/tmp/x")
    ⟨[str "/tmp/x/b.file", str "/tmp/x/stale.go"],
      [(str "b.file", str "\"1\"")], 0, 0, [], []⟩
    ⟨str "home/dags/b.file", str "\"1\""⟩ (str "b.file")
    (by decide) (by decide) (by decide) (by decide)

/-! ## C10 -/

/-- C10: the classifier state entering the listing has both counters
reset to zero (pull.go resets them just before `ListObjectsV2Pages`),
and after any number of records processed from that state the counters
satisfy `0 ≤ filePulledCnt ≤ fileListedCnt`: the pulled counter is
incremented only in an iteration that already incremented the listed
counter. -/
theorem counters_bounded (dsMatch : Str → Str → Bool) (exclude : List Str)
    (bucket remoteDirPath localDir : Str) (objs : List S3Obj)
    (del : List Str) (cache : List (Str × Str)) (n : Nat) :
    (cycleStart del cache).fileListedCnt = 0 ∧
    (cycleStart del cache).filePulledCnt = 0 ∧
    0 ≤ ((objs.take n).foldl (processObj dsMatch exclude bucket remoteDirPath localDir)
          (cycleStart del cache)).filePulledCnt ∧
    ((objs.take n).foldl (processObj dsMatch exclude bucket remoteDirPath localDir)
          (cycleStart del cache)).filePulledCnt ≤
      ((objs.take n).foldl (processObj dsMatch exclude bucket remoteDirPath localDir)
          (cycleStart del cache)).fileListedCnt := by
  refine ⟨rfl, rfl, ?_⟩
  exact foldl_processObj_counters dsMatch exclude bucket remoteDirPath localDir
    (objs.take n) (cycleStart del cache) (by simp [cycleStart]) (by simp [cycleStart])

/-! ## C9 -/

/-- C9: when the remote listing fails, `Pull` returns the fatal listing
message, removes no path from the delete set (best-effort deletion is
skipped entirely), and every file a drained worker renamed into place
stays in place (pkg/sync/pull.go, the `err != nil` branch after
`close(taskQueue); wg.Wait()`). -/
theorem listing_failure_frame (remoteUri localDir : Str)
    (dsMatch : Str → Str → Bool) (exclude : List Str)
    (cache : List (Str × Str)) (env : PullEnv) (bk : Str × Str)
    (hinv : env.inventoryErr = false)
    (huri : parseObjectUri remoteUri = some bk)
    (hreg : env.regionOk = true) (hwd : env.workingDirOk = true)
    (hlist : env.listingErr = true) :
    (pull remoteUri localDir dsMatch exclude cache env).deleted = [] ∧
    (pull remoteUri localDir dsMatch exclude cache env).msg = listFailMsg remoteUri ∧
    ∀ p ∈ (pull remoteUri localDir dsMatch exclude cache env).written,
      p ∉ (pull remoteUri localDir dsMatch exclude cache env).deleted := by
  unfold pull
  rw [hinv, huri, hreg, hwd, hlist]
  simp

/-- Witness for C9: a failed listing over one delivered page leaves the
delete set untouched. -/
theorem listing_failure_frame_witness :
    (pull (str "s3://bkt/home/dags") (str "/tmp/x") (fun _ _ => false) [] []
        ⟨⟨[], [[str "stale.go"]]⟩, [], false, true, true,
          [[⟨str "home/dags/b.file", str "\"1\""⟩]], true,
          fun _ => ⟨true, true, true, true, true⟩⟩).deleted = [] ∧
    (pull (str "s3://bkt/home/dags") (str "/tmp/x") (fun _ _ => false) [] []
        ⟨⟨[], [[str "stale.go"]]⟩, [], false, true, true,
          [[⟨str "home/dags/b.file", str "\"1\""⟩]], true,
          fun _ => ⟨true, true, true, true, true⟩⟩).msg =
      listFailMsg (str "s3://bkt/home/dags") ∧
    ∀ p ∈ (pull (str "s3://bkt/home/dags") (str "/tmp/x") (fun _ _ => false) [] []
        ⟨⟨[], [[str "stale.go"]]⟩, [], false, true, true,
          [[⟨str "home/dags/b.file", str "\"1\""⟩]], true,
          fun _ => ⟨true, true, true, true, true⟩⟩).written,
      p ∉ (pull (str "s3://bkt/home/dags") (str "/tmp/x") (fun _ _ => false) [] []
        ⟨⟨[], [[str "stale.go"]]⟩, [], false, true, true,
          [[⟨str "home/dags/b.file", str "\"1\""⟩]], true,
          fun _ => ⟨true, true, true, true, true⟩⟩).deleted :=
  listing_failure_frame (str "s3://bkt/home/dags") (str "/tmp/x")
    (fun _ _ => false) [] []
    ⟨⟨[], [[str "stale.go"]]⟩, [], false, true, true,
      [[⟨str "home/dags/b.file", str "\"1\""⟩]], true,
      fun _ => ⟨true, true, true, true, true⟩⟩
    (str "bkt", str "home/dags") rfl (by decide) rfl rfl rfl

/-! ## C3 -/

/-- C3 (counterexample): the claim says the readiness flag is true
immediately after the first pull cycle completes.  In main.go the
`InitialRunFinished.Store(true)` statement sits inside the ticker
`select` arm, after the second and later pulls; the first pull, run
before the loop, stores nothing.  For a run whose first cycle completes
cleanly, the flag right after that first cycle is still `false`. -/
theorem flag_false_after_first_cycle :
    (daemonRun [[]]).exited = none ∧ (daemonRun [[]]).flagAfterFirst = false := by
  decide

/-- C3 (amended): in daemon mode the readiness flag is still false when
the first pull completes; it becomes true exactly when a second pull
runs and both the first and second pulls returned empty error strings
(any non-empty error string exits the process before the flag is
stored). -/
theorem readiness_after_second_cycle (msgs : List Str) :
    (daemonRun msgs).flagAfterFirst = false ∧
    ((daemonRun msgs).flag = true ↔ msgs.take 2 = [[], []]) := by
  cases msgs with
  | nil => exact ⟨rfl, by simp [daemonRun]⟩
  | cons m1 rest =>
    by_cases h1 : m1 = []
    · subst h1
      refine ⟨by simp [daemonRun], ?_⟩
      show (daemonLoop false rest).1 = true ↔ _
      cases rest with
      | nil => simp [daemonLoop]
      | cons m2 r2 =>
        by_cases h2 : m2 = [] <;>
          simp [daemonLoop, h2, daemonLoop_true_flag]
    · simp [daemonRun, h1]

/-! ## C4 -/

/-- C4 (counterexample): the claim says a cycle whose aggregated error
string consists only of non-fatal per-task messages is reported and the
loop continues.  In main.go, `pull()` calls `os.Exit(1)` on any
non-empty error string.  Here a cycle with a successful listing and one
task whose rename fails produces exactly the aggregated per-task message
`"Failed to replace file /tmp/x/b.file for download"`, and feeding it to
the daemon loop exits the process with status 1 instead of continuing. -/
theorem nonfatal_error_exits_process :
    (pull (str "s3://bkt/home/dags") (str "/tmp/x") (fun _ _ => false) [] []
        ⟨⟨[], []⟩, [], false, true, true,
          [[⟨str "home/dags/b.file", str "\"1\""⟩]], false,
          fun _ => ⟨true, true, true, true, false⟩⟩).msg =
      str "Failed to replace file /tmp/x/b.file for download" ∧
    (daemonRun [[],
      (pull (str "s3://bkt/home/dags") (str "/tmp/x") (fun _ _ => false) [] []
        ⟨⟨[], []⟩, [], false, true, true,
          [[⟨str "home/dags/b.file", str "\"1\""⟩]], false,
          fun _ => ⟨true, true, true, true, false⟩⟩).msg]).exited = some 1 := by
  decide

/-- C4 (amended): in daemon mode any pull returning a non-empty error
string — aggregated non-fatal per-task messages and fatal messages
alike — makes the process exit with status 1; the loop continues only
while every completed pull returns an empty string. -/
theorem any_error_exits (msgs : List Str) :
    (daemonRun msgs).exited = some 1 ↔ ∃ m ∈ msgs, m ≠ [] := by
  have loopLemma : ∀ (ms : List Str) (b : Bool),
      (daemonLoop b ms).2 = some 1 ↔ ∃ m ∈ ms, m ≠ [] := by
    intro ms
    induction ms with
    | nil => intro b; simp [daemonLoop]
    | cons m ms ih =>
      intro b
      by_cases h : m = [] <;> simp [daemonLoop, h, ih]
  cases msgs with
  | nil => simp [daemonRun]
  | cons m1 rest =>
    by_cases h1 : m1 = []
    · subst h1
      simpa [daemonRun] using loopLemma rest false
    · simp [daemonRun, h1]

/-! ## C2: shape of `filepath.Rel` results -/

/-- Raw split segments never contain the separator. -/
theorem splitSeg_no_slash (xs : Str) : ∀ s ∈ splitSeg xs, '/' ∉ s := by
  induction xs with
  | nil => intro s hs; simp [splitSeg] at hs; simp [hs]
  | cons c cs ih =>
    intro s hs
    unfold splitSeg at hs
    by_cases hc : c = '/'
    · rw [if_pos hc] at hs
      rcases List.mem_cons.mp hs with rfl | h
      · simp
      · exact ih s h
    · rw [if_neg hc] at hs
      rcases hrec : splitSeg cs with - | ⟨s0, rest⟩
      · rw [hrec] at hs
        rcases List.mem_cons.mp hs with rfl | h
        · simp only [List.mem_singleton]
          exact fun h0 => hc h0.symm
        · cases h
      · rw [hrec] at hs
        rcases List.mem_cons.mp hs with rfl | h
        · intro hmem
          rcases List.mem_cons.mp hmem with rfl | hmem0
          · exact hc rfl
          · exact ih s0 (hrec ▸ List.mem_cons_self s0 rest) hmem0
        · exact ih s (hrec ▸ List.mem_cons_of_mem s0 h)

/-- Property of every segment a cleaned path is made of. -/
def GoodSeg (t : Str) : Prop := t ≠ [] ∧ '/' ∉ t

/-- The clean stack only ever holds good segments. -/
theorem cleanPush_good (rooted : Bool) (stack : List Str) (seg : Str)
    (hst : ∀ t ∈ stack, GoodSeg t) (hsl : '/' ∉ seg) :
    ∀ t ∈ cleanPush rooted stack seg, GoodSeg t := by
  intro t ht
  unfold cleanPush at ht
  split at ht
  · exact hst t ht
  · split at ht
    · rename_i hempty hdd
      split at ht
      · split at ht
        · cases ht
        · rcases List.mem_cons.mp ht with rfl | h
          · exact ⟨by simp [hdd, str], hdd ▸ hsl⟩
          · cases h
      · split at ht
        · rcases List.mem_cons.mp ht with rfl | h
          · exact ⟨by simp [hdd, str], hdd ▸ hsl⟩
          · exact hst t h
        · exact hst t (List.mem_cons_of_mem _ ht)
    · rcases List.mem_cons.mp ht with rfl | h
      · rename_i hempty hdd
        exact ⟨fun he => hempty (Or.inl he), hsl⟩
      · exact hst t h

/-- Every segment of a cleaned path is nonempty and separator-free. -/
theorem cleanSegs_good (rooted : Bool) (xs : Str) :
    ∀ t ∈ cleanSegs rooted xs, GoodSeg t := by
  have main : ∀ (segs : List Str) (stack : List Str),
      (∀ s ∈ segs, '/' ∉ s) → (∀ t ∈ stack, GoodSeg t) →
      ∀ t ∈ segs.foldl (cleanPush rooted) stack, GoodSeg t := by
    intro segs
    induction segs with
    | nil => intro stack _ hst t ht; exact hst t ht
    | cons sg rest ih =>
      intro stack hsegs hst t ht
      exact ih (cleanPush rooted stack sg)
        (fun s hs => hsegs s (List.mem_cons_of_mem _ hs))
        (cleanPush_good rooted stack sg hst (hsegs sg (List.mem_cons_self _ _))) t ht
  intro t ht
  rw [cleanSegs, List.mem_reverse] at ht
  exact main (splitSeg xs) [] (splitSeg_no_slash xs) (by simp) t ht

/-- The function `dropCommon` returns a sublist of its second argument on the right. -/
theorem dropCommon_snd_subset : ∀ a b : List Str, (dropCommon a b).2 ⊆ b := by
  intro a
  induction a with
  | nil => intro b; simp [dropCommon]
  | cons x xs ih =>
    intro b
    cases b with
    | nil => simp [dropCommon]
    | cons y ys =>
      by_cases h : x = y
      · simpa [dropCommon, h] using (ih ys).trans (List.subset_cons_self _ _)
      · simp [dropCommon, h]

/-- Joining good segments never yields a string that begins with the
separator. -/
theorem joinSegs_head (segs : List Str) (hgood : ∀ t ∈ segs, GoodSeg t) :
    (joinSegs segs).head? ≠ some '/' := by
  cases segs with
  | nil => simp [joinSegs, List.intercalate]
  | cons a l =>
    have ha := hgood a (List.mem_cons_self _ _)
    have hform : ∃ t, joinSegs (a :: l) = a ++ t := by
      cases l with
      | nil => exact ⟨[], by simp [joinSegs, List.intercalate]⟩
      | cons b t2 =>
        exact ⟨str "/" ++ joinSegs (b :: t2), by
          simp [joinSegs, List.intercalate, List.intersperse]⟩
    rcases hform with ⟨t, ht⟩
    rw [ht]
    cases a with
    | nil => exact absurd rfl ha.1
    | cons c a0 =>
      intro hc
      have hc2 : c = '/' := by simpa using hc
      exact ha.2 (by rw [hc2]; exact List.mem_cons_self _ _)

/-- The tail of `filepath.Rel` only returns joins of good segments. -/
theorem goRelTail_no_leading_slash (bs ts : List Str) (r : Str)
    (hts : ∀ t ∈ ts, GoodSeg t) (h : goRelTail bs ts = some r) :
    r.head? ≠ some '/' := by
  unfold goRelTail at h
  split at h
  · cases h
  · split at h
    · cases h
      apply joinSegs_head
      intro t ht
      rcases List.mem_append.mp ht with hrep | hrem
      · rw [List.eq_of_mem_replicate hrep]
        exact ⟨by decide, by decide⟩
      · exact hts t (dropCommon_snd_subset _ _ hrem)
    · cases h
      apply joinSegs_head
      intro t ht
      exact hts t (dropCommon_snd_subset _ _ ht)

/-- A successful `filepath.Rel` never returns a string that begins with
`'/'`. -/
theorem goRel_no_leading_slash (base targ r : Str)
    (h : goRel base targ = some r) : r.head? ≠ some '/' := by
  unfold goRel at h
  split at h
  · cases h; decide
  · split at h
    · cases h
    · refine goRelTail_no_leading_slash _ _ r ?_ h
      split
      · intro t ht
        rcases List.mem_cons.mp ht with rfl | h0
        · exact ⟨by decide, by decide⟩
        · cases h0
      · exact cleanSegs_good _ _

/-- The per-record step preserves the counted-key shape invariant. -/
theorem processObj_listedRel (dsMatch : Str → Str → Bool) (exclude : List Str)
    (bucket remoteDirPath localDir : Str) (s : ClassifierState) (obj : S3Obj)
    (hs : ∀ rp ∈ s.listedRel,
      rp.head? ≠ some '/' ∧ rp ≠ [] ∧ rp ≠ str "/" ∧ rp ≠ str ".") :
    ∀ rp ∈ (processObj dsMatch exclude bucket remoteDirPath localDir s obj).listedRel,
      rp.head? ≠ some '/' ∧ rp ≠ [] ∧ rp ≠ str "/" ∧ rp ≠ str "." := by
  intro rp hrp
  unfold processObj at hrp
  split at hrp
  · exact hs rp hrp
  · rename_i hnotdir
    split at hrp
    · exact hs rp hrp
    · rename_i relPath hrel
      split at hrp
      · exact hs rp hrp
      · split at hrp
        · exact hs rp hrp
        · rename_i hguard
          have hnew : relPath.head? ≠ some '/' ∧ relPath ≠ [] ∧
              relPath ≠ str "/" ∧ relPath ≠ str "." := by
            refine ⟨goRel_no_leading_slash _ _ _ hrel, ?_, ?_, ?_⟩ <;>
              (intro he; exact hguard (by simp [he]))
          split at hrp <;>
          · simp only [] at hrp
            rcases List.mem_append.mp hrp with h0 | h0
            · exact hs rp h0
            · rcases List.mem_singleton.mp h0 with rfl
              exact hnew

/-! ## C2 claim -/

/-- C2 (counterexample): the claim says a relative key carried past the
relativization step never contains `".."`, and that records whose key is
not under the prefix are skipped there.  Go's `filepath.Rel` does not
fail for `home/dagsfoo.txt` against base `home/dags` — it returns
`"../dagsfoo.txt"` — so the record is carried on, counted as listed, and
even produces a task whose local path `/tmp/dagsfoo.txt` escapes the
local root `/tmp/x`. -/
theorem relative_key_dotdot_counterexample :
    (handlePageList (fun _ _ => false) [] [⟨str "home/dagsfoo.txt", str "\"e\""⟩]
      (str "bkt") (str "home/dags") (str "/tmp/x")
      ⟨[], [], 0, 0, [], []⟩).listedRel = [str "../dagsfoo.txt"] ∧
    str ".." <:+: str "../dagsfoo.txt" ∧
    goRel (str "home/dags") (str "home/dagsfoo.txt") = some (str "../dagsfoo.txt") ∧
    (handlePageList (fun _ _ => false) [] [⟨str "home/dagsfoo.txt", str "\"e\""⟩]
      (str "bkt") (str "home/dags") (str "/tmp/x")
      ⟨[], [], 0, 0, [], []⟩).fileListedCnt = 1 ∧
    ((handlePageList (fun _ _ => false) [] [⟨str "home/dagsfoo.txt", str "\"e\""⟩]
      (str "bkt") (str "home/dags") (str "/tmp/x")
      ⟨[], [], 0, 0, [], []⟩).tasks.map DownloadTask.LocalPath) =
        [str "/tmp/dagsfoo.txt"] := by
  decide

/-- C2 (amended): every relative key recorded at the count point of the
classifier never begins with `'/'` and never equals `""`, `"/"` or `"."`
(those three are skipped by the explicit prefix-itself check); a key may
however contain `".."` when the listed key is a string-prefix match but
not a path descendant of the configured prefix, and such records are not
skipped at the relativization step (Go's `filepath.Rel` only fails on an
absolute/relative mismatch or a remaining-`".."` base). -/
theorem listed_keys_shape (dsMatch : Str → Str → Bool) (exclude : List Str)
    (page : List S3Obj) (bucket remoteDirPath localDir : Str)
    (s : ClassifierState)
    (hs : ∀ rp ∈ s.listedRel,
      rp.head? ≠ some '/' ∧ rp ≠ [] ∧ rp ≠ str "/" ∧ rp ≠ str ".") :
    ∀ rp ∈ (handlePageList dsMatch exclude page bucket remoteDirPath localDir s).listedRel,
      rp.head? ≠ some '/' ∧ rp ≠ [] ∧ rp ≠ str "/" ∧ rp ≠ str "." := by
  induction page generalizing s with
  | nil => exact hs
  | cons o os ih =>
    exact ih _ (processObj_listedRel dsMatch exclude bucket remoteDirPath
      localDir s o hs)

/-- Witness for C2 (amended): the stray key of the counterexample page
is recorded at the count point, and the theorem applied to it shows the
shape guarantees that do hold. -/
theorem listed_keys_shape_witness :
    (str "../dagsfoo.txt").head? ≠ some '/' ∧ str "../dagsfoo.txt" ≠ [] ∧
      str "../dagsfoo.txt" ≠ str "/" ∧ str "../dagsfoo.txt" ≠ str "." :=
  listed_keys_shape (fun _ _ => false) []
    [⟨str "home/dags/b.file", str "\"1\""⟩, ⟨str "home/dagsfoo.txt", str "\"e\""⟩]
    (str "bkt") (str "home/dags") (str "/tmp/x") ⟨[], [], 0, 0, [], []⟩
    (by simp) (str "../dagsfoo.txt") (by decide)

/-! ## C5: empty-directory pruning -/

/-- One `os.Remove` never removes anything but its own argument. -/
theorem pruneStep_subset (files dirsCur : List (List Str)) (d : List Str) :
    pruneStep files dirsCur d ⊆ dirsCur := by
  unfold pruneStep
  split
  · exact fun x hx => List.mem_of_mem_erase hx
  · exact List.Subset.refl _

/-- A directory already gone stays gone for the rest of the loop. -/
theorem pruneDirs_not_mem (files : List (List Str)) (d : List Str) :
    ∀ (order dirsCur : List (List Str)), d ∉ dirsCur →
      d ∉ pruneDirs files dirsCur order := by
  intro order
  induction order with
  | nil => intro dirsCur h; exact h
  | cons o os ih =>
    intro dirsCur h
    exact ih _ (fun hmem => h (pruneStep_subset files dirsCur o hmem))

/-- The deletion loop preserves `Nodup` of the directory list. -/
theorem pruneStep_nodup (files dirsCur : List (List Str)) (d : List Str)
    (h : dirsCur.Nodup) : (pruneStep files dirsCur d).Nodup := by
  unfold pruneStep
  split
  · exact h.erase d
  · exact h

/-- Unfolding of the emptiness test `os.Remove` amounts to. -/
theorem hasEntryUnder_iff (dirsCur files : List (List Str)) (d : List Str) :
    hasEntryUnder dirsCur files d = true ↔
      (∃ q ∈ dirsCur, d ≠ q ∧ d <+: q) ∨ ∃ f ∈ files, d ≠ f ∧ d <+: f := by
  simp [hasEntryUnder, List.any_eq_true, isPrefixOfEq]

/-- A marked directory with nothing at all underneath it is removed by
the deletion loop, whatever order the map iteration produces. -/
theorem pruneDirs_removes_leaf (files : List (List Str)) (d : List Str) :
    ∀ (order dirsCur : List (List Str)), dirsCur.Nodup →
      d ∈ order → d ∈ dirsCur →
      (∀ q ∈ dirsCur, d ≠ q → ¬ d <+: q) →
      (∀ f ∈ files, d ≠ f → ¬ d <+: f) →
      d ∉ pruneDirs files dirsCur order := by
  intro order
  induction order with
  | nil => intro _ _ h; cases h
  | cons o os ih =>
    intro dirsCur hnd hord hmem hnodir hnofile
    by_cases ho : o = d
    · have hempty : hasEntryUnder dirsCur files d = false := by
        rw [Bool.eq_false_iff]
        intro htrue
        rcases (hasEntryUnder_iff dirsCur files d).mp htrue with
          ⟨q, hq, hne, hpre⟩ | ⟨f, hf, hne, hpre⟩
        · exact hnodir q hq hne hpre
        · exact hnofile f hf hne hpre
      have hremoved : pruneStep files dirsCur o = dirsCur.erase o := by
        unfold pruneStep
        rw [ho, if_pos]
        exact ⟨hmem, by rw [hempty]; exact Bool.false_ne_true⟩
      show d ∉ pruneDirs files (pruneStep files dirsCur o) os
      rw [hremoved, ho]
      exact pruneDirs_not_mem files d os _
        (fun hx => ((hnd.mem_erase_iff).mp hx).1 rfl)
    · have hord2 : d ∈ os := by
        rcases List.mem_cons.mp hord with h | h
        · exact absurd h.symm ho
        · exact h
      refine ih _ (pruneStep_nodup files dirsCur o hnd) hord2 ?_ ?_ hnofile
      · unfold pruneStep
        split
        · exact (List.mem_erase_of_ne (fun h => ho h.symm)).mpr hmem
        · exact hmem
      · intro q hq
        exact hnodir q (pruneStep_subset files dirsCur o hq)

/-- C5 (counterexample): the claim says every directory with no
surviving descendants is removed, and highlights an empty directory
nested inside another otherwise-empty directory.  The removal loop
iterates over a Go map in unspecified order and ignores `os.Remove`
errors, so when the outer directory `a` is attempted before the inner
`a/b`, removing `a` fails (it still contains `b`), the error is
swallowed, and `a` survives the call even though it has no surviving
descendants and is not excluded. -/
theorem empty_dir_survives_counterexample :
    [[str "a"], [str "a", str "b"]].Perm
      (dirsToDelete ⟨[[str "a"], [str "a", str "b"]], []⟩
        (isPathExcluded (fun _ _ => false) [])) ∧
    markedDir (isPathExcluded (fun _ _ => false) []) [str "a"] = true ∧
    (⟨[[str "a"], [str "a", str "b"]], []⟩ : LocalFs).files = [] ∧
    [str "a"] ∈ (listAndPruneDir (str "/r")
      ⟨[[str "a"], [str "a", str "b"]], []⟩
      (isPathExcluded (fun _ _ => false) [])
      [[str "a"], [str "a", str "b"]]).remainingDirs := by
  decide

/-- C5 (amended): after `listAndPruneDir`, every directory strictly
under the local root that the walk marked (neither it nor an ancestor is
excluded) and that has no entries underneath it at all is removed, for
every map iteration order; a directory whose only remaining content is
an excluded file, or an empty subdirectory that the unspecified order
has not yet removed, may survive the call — in particular, of two nested
otherwise-empty directories the inner one is always removed while the
outer one survives under an adverse order. -/
theorem marked_leaf_dir_removed (root : Str) (fs : LocalFs)
    (excl : Str → Bool) (order : List (List Str)) (d : List Str)
    (hnd : fs.dirs.Nodup)
    (hperm : order.Perm (dirsToDelete fs excl))
    (hmem : d ∈ fs.dirs)
    (hmark : markedDir excl d = true)
    (hleaf : hasEntryUnder fs.dirs fs.files d = false) :
    d ∉ (listAndPruneDir root fs excl order).remainingDirs := by
  have hnotrue : ¬ hasEntryUnder fs.dirs fs.files d = true := by
    rw [hleaf]; exact Bool.false_ne_true
  have hdirpart : ∀ q ∈ fs.dirs, d ≠ q → ¬ d <+: q := by
    intro q hq hne hpre
    exact hnotrue ((hasEntryUnder_iff _ _ _).mpr (Or.inl ⟨q, hq, hne, hpre⟩))
  have hfilepart : ∀ f ∈ fs.files, d ≠ f → ¬ d <+: f := by
    intro f hf hne hpre
    exact hnotrue ((hasEntryUnder_iff _ _ _).mpr (Or.inr ⟨f, hf, hne, hpre⟩))
  have hdne : d ≠ [] := by
    intro h0
    rw [markedDir, h0] at hmark
    simp at hmark
  have hdel : d ∈ dirsToDelete fs excl := by
    unfold dirsToDelete
    rw [List.mem_filter, List.mem_filter]
    refine ⟨⟨hmem, by simpa using hmark⟩, ?_⟩
    simp only [List.any_eq_true, decide_eq_true_eq, not_exists, not_and,
      Bool.not_eq_true]
    intro f hf _ hpar
    have hfne : f ≠ [] := by
      intro h0
      rw [h0] at hpar
      exact hdne (by simpa using hpar.symm)
    have hne : d ≠ f := by
      intro h0
      apply hfne
      have hlen := congrArg List.length hpar
      rw [List.length_dropLast, h0] at hlen
      cases f with
      | nil => rfl
      | cons x xs => simp at hlen
    have hpre : d <+: f := hpar ▸ dropLastIsPrefix f
    exact hfilepart f hf hne hpre
  exact pruneDirs_removes_leaf fs.files d order fs.dirs hnd
    (hperm.mem_iff.mpr hdel) hmem hdirpart hfilepart

/-- Witness for C5 (amended): the inner of two nested empty directories
is removed under the adverse order of the counterexample. -/
theorem marked_leaf_dir_removed_witness :
    [str "a", str "b"] ∉ (listAndPruneDir (str "/r")
      ⟨[[str "a"], [str "a", str "b"]], []⟩
      (isPathExcluded (fun _ _ => false) [])
      [[str "a"], [str "a", str "b"]]).remainingDirs :=
  marked_leaf_dir_removed (str "/r") ⟨[[str "a"], [str "a", str "b"]], []⟩
    (isPathExcluded (fun _ _ => false) [])
    [[str "a"], [str "a", str "b"]] [str "a", str "b"]
    (by decide) (by decide) (by decide) (by decide) (by decide)

/-! ## C8: characterization of `parseObjectUri` -/

/-- A successful first-occurrence split decomposes its input. -/
theorem splitOnce_eq_append (sep : Str) :
    ∀ (xs l r : Str), splitOnce sep xs = some (l, r) → xs = l ++ sep ++ r := by
  intro xs
  induction xs with
  | nil =>
    intro l r h
    unfold splitOnce at h
    split at h
    · rename_i hpre
      have hsep : sep = [] := isPrefixNilIff.mp (isPrefixOfEq.mp hpre)
      cases h
      simp [hsep]
    · cases h
  | cons c cs ih =>
    intro l r h
    unfold splitOnce at h
    split at h
    · rename_i hpre
      rcases isPrefixOfEq.mp hpre with ⟨t, ht⟩
      cases h
      rw [← ht, List.nil_append, List.drop_left]
    · rcases hopt : splitOnce sep cs with - | ⟨l0, r0⟩
      · rw [hopt] at h; cases h
      · rw [hopt] at h
        simp only [Option.map_some'] at h
        cases h
        have := ih _ _ hopt
        simp [this]

/-- A first-occurrence split fails exactly when the separator does not
occur. -/
theorem splitOnce_eq_none_iff (sep : Str) (hsep : sep ≠ []) :
    ∀ xs : Str, splitOnce sep xs = none ↔ ¬ sep <:+: xs := by
  intro xs
  induction xs with
  | nil =>
    unfold splitOnce
    rw [if_neg (fun hpre => hsep (isPrefixNilIff.mp (isPrefixOfEq.mp hpre)))]
    simp [List.infix_nil, hsep]
  | cons c cs ih =>
    unfold splitOnce
    by_cases hpre : sep.isPrefixOf (c :: cs) = true
    · rw [if_pos hpre]
      simp only [reduceCtorEq, false_iff, not_not]
      exact (isPrefixOfEq.mp hpre).isInfix
    · rw [if_neg hpre]
      rw [Option.map_eq_none', ih, List.infix_cons_iff]
      constructor
      · intro hni h0
        rcases h0 with hp | hi
        · exact hpre (isPrefixOfEq.mpr hp)
        · exact hni hi
      · intro h0 hi
        exact h0 (Or.inr hi)

/-- No earlier occurrence: the left part of a first-occurrence split on
`"//"` followed by one `'/'` still contains no `"//"`. -/
theorem splitOnce_dslash_free :
    ∀ (xs l r : Str), splitOnce (str "//") xs = some (l, r) →
      ¬ (str "//") <:+: (l ++ str "/") := by
  intro xs
  induction xs with
  | nil =>
    intro l r h
    unfold splitOnce at h
    split at h
    · rename_i hpre
      exact absurd hpre (by decide)
    · cases h
  | cons c cs ih =>
    intro l r h
    unfold splitOnce at h
    split at h
    · cases h
      decide
    · rename_i hpre
      rcases hopt : splitOnce (str "//") cs with - | ⟨l0, r0⟩
      · rw [hopt] at h; cases h
      · rw [hopt] at h
        simp only [Option.map_some'] at h
        cases h
        intro hinf
        rcases List.infix_cons_iff.mp hinf with hp | hi
        · apply hpre
          rw [isPrefixOfEq]
          have hcs := splitOnce_eq_append (str "//") cs _ _ hopt
          rcases List.cons_prefix_cons.mp hp with ⟨hc, hp2⟩
          rw [hcs, ← hc]
          cases l0 with
          | nil => exact ⟨_, rfl⟩
          | cons h0 t0 =>
            rcases List.cons_prefix_cons.mp hp2 with ⟨hh, _⟩
            rw [← hh]
            exact List.cons_prefix_cons.mpr
              ⟨rfl, List.cons_prefix_cons.mpr ⟨rfl, nilIsPrefix⟩⟩
        · exact ih _ _ hopt hi

/-- Converse: a decomposition at a first occurrence of `"//"` is exactly
what the split returns. -/
theorem splitOnce_dslash_of_decomp :
    ∀ (s t : Str), ¬ (str "//") <:+: (s ++ str "/") →
      splitOnce (str "//") (s ++ str "//" ++ t) = some (s, t) := by
  intro s
  induction s with
  | nil =>
    intro t _
    show splitOnce (str "//") ('/' :: '/' :: t) = some ([], t)
    unfold splitOnce
    rw [if_pos (show List.isPrefixOf (str "//") ('/' :: '/' :: t) = true from
      isPrefixOfEq.mpr ⟨t, rfl⟩)]
    rfl
  | cons c s0 ih =>
    intro t hfree
    have hfree0 : ¬ (str "//") <:+: (s0 ++ str "/") := by
      intro hi
      exact hfree (List.infix_cons hi)
    have hnp : ¬ (str "//").isPrefixOf (c :: (s0 ++ str "//" ++ t)) = true := by
      rw [isPrefixOfEq]
      intro hp
      apply hfree
      rcases List.cons_prefix_cons.mp hp with ⟨hc, hp2⟩
      refine List.infix_cons_iff.mpr (Or.inl (List.cons_prefix_cons.mpr ⟨hc, ?_⟩))
      cases s0 with
      | nil => exact List.cons_prefix_cons.mpr ⟨rfl, nilIsPrefix⟩
      | cons h0 t0 =>
        rcases List.cons_prefix_cons.mp hp2 with ⟨hh, _⟩
        exact List.cons_prefix_cons.mpr ⟨hh, nilIsPrefix⟩
    show splitOnce (str "//") (c :: (s0 ++ str "//" ++ t)) = some (c :: s0, t)
    unfold splitOnce
    rw [if_neg hnp, ih t hfree0]
    rfl

/-- The bucket part of the inner split contains no `'/'`. -/
theorem splitOnce_slash_no_slash :
    ∀ (xs b k : Str), splitOnce (str "/") xs = some (b, k) → '/' ∉ b := by
  intro xs
  induction xs with
  | nil =>
    intro b k h
    unfold splitOnce at h
    split at h
    · rename_i hpre
      exact absurd hpre (by decide)
    · cases h
  | cons c cs ih =>
    intro b k h
    unfold splitOnce at h
    split at h
    · cases h
      simp
    · rename_i hpre
      rcases hopt : splitOnce (str "/") cs with - | ⟨b0, k0⟩
      · rw [hopt] at h; cases h
      · rw [hopt] at h
        simp only [Option.map_some'] at h
        cases h
        intro hmem
        rcases List.mem_cons.mp hmem with hc | hm
        · exact hpre (isPrefixOfEq.mpr
            (List.cons_prefix_cons.mpr ⟨hc, nilIsPrefix⟩))
        · exact ih _ _ hopt hm

/-- Converse for the inner split: a slash-free bucket decomposition is
what the split returns. -/
theorem splitOnce_slash_of_decomp :
    ∀ (b k : Str), '/' ∉ b →
      splitOnce (str "/") (b ++ str "/" ++ k) = some (b, k) := by
  intro b
  induction b with
  | nil =>
    intro k _
    show splitOnce (str "/") ('/' :: k) = some ([], k)
    unfold splitOnce
    rw [if_pos (show List.isPrefixOf (str "/") ('/' :: k) = true from
      isPrefixOfEq.mpr ⟨k, rfl⟩)]
    rfl
  | cons c b0 ih =>
    intro k hnb
    have hc : ¬ ('/' = c) := fun h => hnb (List.mem_cons.mpr (Or.inl h))
    have hnp : ¬ (str "/").isPrefixOf (c :: (b0 ++ str "/" ++ k)) = true := by
      rw [isPrefixOfEq]
      intro hp
      exact hc (List.cons_prefix_cons.mp hp).1
    show splitOnce (str "/") (c :: (b0 ++ str "/" ++ k)) = some (c :: b0, k)
    unfold splitOnce
    rw [if_neg hnp, ih k (fun hm => hnb (List.mem_cons.mpr (Or.inr hm)))]
    rfl

/-- A single `'/'` occurs as an infix exactly when it occurs as a
character. -/
theorem slash_infix_iff_mem (xs : Str) : (str "/") <:+: xs ↔ '/' ∈ xs := by
  induction xs with
  | nil => decide
  | cons c cs ih =>
    rw [List.infix_cons_iff, List.mem_cons]
    constructor
    · rintro (hp | hi)
      · exact Or.inl (List.cons_prefix_cons.mp hp).1
      · exact Or.inr (ih.mp hi)
    · rintro (hc | hm)
      · exact Or.inl (List.cons_prefix_cons.mpr ⟨hc, nilIsPrefix⟩)
      · exact Or.inr (ih.mpr hm)

/-- C8: `parseObjectUri` errors exactly when the input contains no
`"//"`, or the remainder after the first `"//"` contains no `'/'`; and
it succeeds with `(bucket, key)` exactly when the input decomposes as
`s ++ "//" ++ bucket ++ "/" ++ key` at the first `"//"` (no `"//"`
occurs in `s` and `s` does not end in `'/'`, stated as `"//"` not
occurring in `s ++ "/"`), with the bucket the `'/'`-free text between
that `"//"` and the next `'/'` and the key everything after it.  The
scheme half `s` is carried but never inspected. -/
theorem parseObjectUri_characterization (uri : Str) :
    (parseObjectUri uri = none ↔
      (¬ (str "//") <:+: uri) ∨
        ∃ s t, uri = s ++ str "//" ++ t ∧
          ¬ (str "//") <:+: (s ++ str "/") ∧ '/' ∉ t) ∧
    (∀ b k, parseObjectUri uri = some (b, k) ↔
      ∃ s, uri = s ++ str "//" ++ b ++ str "/" ++ k ∧
        ¬ (str "//") <:+: (s ++ str "/") ∧ '/' ∉ b) := by
  constructor
  · constructor
    · intro h
      unfold parseObjectUri at h
      rcases h1 : splitOnce (str "//") uri with - | ⟨s, path⟩
      · exact Or.inl ((splitOnce_eq_none_iff _ (by decide) uri).mp h1)
      · simp only [h1] at h
        rcases h2 : splitOnce (str "/") path with - | ⟨b, k⟩
        · refine Or.inr ⟨s, path, splitOnce_eq_append _ _ _ _ h1,
            splitOnce_dslash_free _ _ _ h1, ?_⟩
          have hni := (splitOnce_eq_none_iff (str "/") (by decide) path).mp h2
          exact fun hm => hni ((slash_infix_iff_mem path).mpr hm)
        · simp only [h2] at h
          exact Option.noConfusion h
    · intro h
      rcases h with hni | ⟨s, t, rfl, hfree, hns⟩
      · unfold parseObjectUri
        simp only [(splitOnce_eq_none_iff _ (by decide) uri).mpr hni]
      · unfold parseObjectUri
        simp only [splitOnce_dslash_of_decomp s t hfree,
          (splitOnce_eq_none_iff (str "/") (by decide) t).mpr
            (fun hi => hns ((slash_infix_iff_mem t).mp hi))]
  · intro b k
    constructor
    · intro h
      unfold parseObjectUri at h
      rcases h1 : splitOnce (str "//") uri with - | ⟨s, path⟩
      · simp only [h1] at h
        exact Option.noConfusion h
      · simp only [h1] at h
        rcases h2 : splitOnce (str "/") path with - | ⟨b0, k0⟩
        · simp only [h2] at h
          exact Option.noConfusion h
        · simp only [h2] at h
          cases h
          refine ⟨s, ?_, splitOnce_dslash_free _ _ _ h1,
            splitOnce_slash_no_slash _ _ _ h2⟩
          have e1 := splitOnce_eq_append _ _ _ _ h1
          have e2 := splitOnce_eq_append _ _ _ _ h2
          rw [e1, e2]
          simp [List.append_assoc]
    · rintro ⟨s, rfl, hfree, hnb⟩
      unfold parseObjectUri
      have e : s ++ str "//" ++ b ++ str "/" ++ k =
          s ++ str "//" ++ (b ++ str "/" ++ k) := by
        simp [List.append_assoc]
      rw [e]
      simp only [splitOnce_dslash_of_decomp s _ hfree,
        splitOnce_slash_of_decomp b k hnb]

end Objinsync
